import Mathlib

/-!
Verification of the shorty URL-store (internal/storage/sqlite) and the
alias generator (internal/pkg/random) against their specification.

The SQLite-backed store is embedded shallowly: the `url` table
(id INTEGER PRIMARY KEY, alias TEXT NOT NULL UNIQUE, url TEXT NOT NULL,
created_at INTEGER NOT NULL, updated_at INTEGER NOT NULL) is a list of
rows, each SQL statement becomes a pure function on that list, and the
Go error values become an explicit error type.  Real time is passed in
as an explicit `now` parameter (the Go code calls `time.Now().Unix()`).
-/

namespace Shorty

/-- One row of the `url` table created by `storage.sqlite.New`:
`id INTEGER PRIMARY KEY, alias TEXT NOT NULL UNIQUE, url TEXT NOT NULL,
created_at INTEGER NOT NULL, updated_at INTEGER NOT NULL`. -/
structure Row where
  id : Nat
  alias_ : String
  url : String
  created_at : Int
  updated_at : Int
deriving Repr, DecidableEq

/-- The state of one store instance: the rows of the `url` table. -/
structure Store where
  rows : List Row
deriving Repr, DecidableEq

/-- The error taxonomy of the storage layer.  `urlNotFound` and
`urlAlreadyExists` are `storage.ErrURLNotFound` / `storage.ErrURLAlreadyExists`;
`storeFailure` stands for any other wrapped persistence error
(`fmt.Errorf("%s: ... %w", op, err)` around an engine error). -/
inductive StorageErr where
  | urlNotFound
  | urlAlreadyExists
  | storeFailure
deriving Repr, DecidableEq

/-- The store produced by `New` on a fresh database file: an empty `url` table. -/
def emptyStore : Store := ⟨[]⟩

/-- Whether some row of the table currently carries `alias` (a live mapping). -/
def isLive (s : Store) (alias_ : String) : Bool :=
  s.rows.any (fun r => r.alias_ == alias_)

/-- The largest `id` currently in the table (0 when empty). -/
def maxId (s : Store) : Nat :=
  s.rows.foldr (fun r m => max r.id m) 0

/-- The rowid SQLite assigns to the next INSERT.  The schema declares
`id INTEGER PRIMARY KEY` without AUTOINCREMENT, so `id` is an alias for the
rowid and, per SQLite's documented allocation rule, a row inserted without an
explicit rowid receives one more than the largest rowid currently in use
(1 when the table is empty).  Rowids of deleted rows may therefore be reused. -/
def nextId (s : Store) : Nat :=
  maxId s + 1

/-- `Storage.SaveURL`: `INSERT INTO url(url, alias, created_at, updated_at)
VALUES(?, ?, ?, ?)`.  A violation of the UNIQUE constraint on `alias` is
detected via `sqlite3.ErrConstraintUnique` and mapped to
`storage.ErrURLAlreadyExists`; on success the assigned rowid is returned via
`LastInsertId`.  `now` is the `time.Now().Unix()` timestamp taken in the call. -/
def saveURL (s : Store) (url alias_ : String) (now : Int) :
    Except StorageErr (Nat × Store) :=
  if s.rows.any (fun r => r.alias_ == alias_) then
    Except.error StorageErr.urlAlreadyExists
  else
    let id := nextId s
    Except.ok (id, ⟨s.rows ++ [⟨id, alias_, url, now, now⟩]⟩)

/-- `Storage.GetURL`: `SELECT url FROM url WHERE alias = ?`;
`sql.ErrNoRows` is mapped to `storage.ErrURLNotFound`.  A SELECT does not
change the table, so no state is returned. -/
def getURL (s : Store) (alias_ : String) : Except StorageErr String :=
  match s.rows.find? (fun r => r.alias_ == alias_) with
  | some r => Except.ok r.url
  | none => Except.error StorageErr.urlNotFound

/-- `Storage.DeleteURL`: `DELETE FROM url WHERE alias = ?`.  The affected-row
count is ignored and a DELETE by key cannot violate a constraint, so the
operation always succeeds. -/
def deleteURL (s : Store) (alias_ : String) : Except StorageErr Store :=
  Except.ok ⟨s.rows.filter (fun r => r.alias_ != alias_)⟩

/-- `Storage.UpdateAlias`: `UPDATE url SET alias = ?, updated_at = ?
WHERE alias = ?`.  When no row matches `oldAlias` the update affects zero rows
and returns nil.  When a row matches and setting its alias to `newAlias` would
collide with another row (the UNIQUE constraint), SQLite aborts the statement;
unlike `SaveURL`, this code path does not inspect the sqlite3 error code, so
the constraint violation surfaces as the generic wrapped error
(`storeFailure`), with the table left unchanged.  The effect of the UPDATE on
one row is `renameRow`: a row whose alias matches `oldAlias` receives the new
alias and the fresh `updated_at`; every other row is untouched. -/
def renameRow (oldAlias newAlias : String) (now : Int) (r : Row) : Row :=
  if r.alias_ == oldAlias then { r with alias_ := newAlias, updated_at := now }
  else r

def updateAlias (s : Store) (oldAlias newAlias : String) (now : Int) :
    Except StorageErr Store :=
  if s.rows.any (fun r => r.alias_ == oldAlias) then
    if newAlias != oldAlias && s.rows.any (fun r => r.alias_ == newAlias) then
      Except.error StorageErr.storeFailure
    else
      Except.ok ⟨s.rows.map (renameRow oldAlias newAlias now)⟩
  else
    Except.ok s

/-- The four store operations of the contract (save / resolve / rename /
delete), with the timestamps the Go code would read from the clock. -/
inductive Op where
  | save (url alias_ : String) (now : Int)
  | resolve (alias_ : String)
  | rename (oldAlias newAlias : String) (now : Int)
  | delete (alias_ : String)
deriving Repr, DecidableEq

/-- The table state after one operation.  Each operation is a single SQLite
statement, hence a single transaction: a failed statement is rolled back and
leaves the table unchanged, and a SELECT never writes. -/
def applyOp (s : Store) : Op → Store
  | Op.save url alias_ now =>
    match saveURL s url alias_ now with
    | Except.ok (_, s2) => s2
    | Except.error _ => s
  | Op.resolve _ => s
  | Op.rename oldAlias newAlias now =>
    match updateAlias s oldAlias newAlias now with
    | Except.ok s2 => s2
    | Except.error _ => s
  | Op.delete alias_ =>
    match deleteURL s alias_ with
    | Except.ok s2 => s2
    | Except.error _ => s

/-- The table state after a sequence of operations. -/
def applyOps (s : Store) (ops : List Op) : Store :=
  ops.foldl applyOp s

/-- The alias-uniqueness invariant: no two rows of the table share an alias
(the UNIQUE constraint on the `alias` column). -/
def Uniq (s : Store) : Prop :=
  s.rows.Pairwise (fun a b => a.alias_ ≠ b.alias_)

instance (s : Store) : Decidable (Uniq s) := by
  unfold Uniq
  infer_instance

/-- The alphabet of `random.GenerateRandomString`:
`[]rune("abcdefghijklmnopqrstuvwxyz0123456789")`. -/
def charset : List Char := "abcdefghijklmnopqrstuvwxyz0123456789".toList

/-- `random.GenerateRandomString(length int) string`.  Each call builds a
fresh time-seeded PRNG and fills `length` runes with
`charset[random.Intn(len(charset))]`; the draws are modelled by `rnd`, one
index in `[0, 36)` per position, since `Intn(36)` returns exactly that range.
Go's `make([]rune, length)` panics when `length` is negative, modelled by
`none`. -/
def generateRandomString (length : Int) (rnd : Nat → Fin 36) : Option String :=
  if length < 0 then
    none
  else
    some (String.mk ((List.range length.toNat).map
      (fun i => charset.get (Fin.cast (by decide) (rnd i)))))

/-! ### Helper lemmas about the embedded operations -/

theorem not_live_forall {s : Store} {a : String} (h : isLive s a = false) :
    ∀ r ∈ s.rows, r.alias_ ≠ a := by
  intro r hr
  have hx := List.any_eq_false.mp h r hr
  simpa using hx

theorem live_exists {s : Store} {a : String} (h : isLive s a = true) :
    ∃ r ∈ s.rows, r.alias_ = a := by
  have hx := List.any_eq_true.mp h
  simpa using hx

theorem id_le_foldrMax (l : List Row) (r : Row) (hr : r ∈ l) :
    r.id ≤ l.foldr (fun x m => max x.id m) 0 := by
  induction l with
  | nil => cases hr
  | cons a t ih =>
    rcases List.mem_cons.mp hr with h | h
    · subst h
      simp only [List.foldr_cons]
      exact Nat.le_max_left _ _
    · simp only [List.foldr_cons]
      exact le_trans (ih h) (Nat.le_max_right _ _)

theorem saveURL_eq_ok {s : Store} {url a : String} {now : Int} {id : Nat} {s2 : Store}
    (h : saveURL s url a now = Except.ok (id, s2)) :
    isLive s a = false ∧ id = nextId s ∧
      s2 = ⟨s.rows ++ [⟨nextId s, a, url, now, now⟩]⟩ := by
  unfold saveURL at h
  split at h
  · exact absurd h (by simp)
  · next hc =>
    simp only [Except.ok.injEq, Prod.mk.injEq] at h
    refine ⟨?_, h.1.symm, h.2.symm⟩
    simpa [isLive] using hc

theorem saveURL_not_live {s : Store} {url a : String} {now : Int}
    (h : isLive s a = false) :
    saveURL s url a now =
      Except.ok (nextId s, ⟨s.rows ++ [⟨nextId s, a, url, now, now⟩]⟩) := by
  have hc : (s.rows.any (fun r => r.alias_ == a)) = false := h
  simp [saveURL, hc]

theorem saveURL_live {s : Store} {url a : String} {now : Int}
    (h : isLive s a = true) :
    saveURL s url a now = Except.error StorageErr.urlAlreadyExists := by
  have hc : (s.rows.any (fun r => r.alias_ == a)) = true := h
  simp [saveURL, hc]

theorem getURL_eq_error {s : Store} {a : String} (h : isLive s a = false) :
    getURL s a = Except.error StorageErr.urlNotFound := by
  have hfind : s.rows.find? (fun r => r.alias_ == a) = none :=
    List.find?_eq_none.mpr (fun x hx => by simpa using not_live_forall h x hx)
  simp [getURL, hfind]

theorem updateAlias_success {s : Store} {oldA newA : String} {now : Int}
    (hold : isLive s oldA = true) (hnew : isLive s newA = false) :
    updateAlias s oldA newA now =
      Except.ok ⟨s.rows.map (renameRow oldA newA now)⟩ := by
  have h1 : (s.rows.any (fun r => r.alias_ == oldA)) = true := hold
  have h2 : (s.rows.any (fun r => r.alias_ == newA)) = false := hnew
  simp [updateAlias, h1, h2]

theorem updateAlias_collision {s : Store} {oldA newA : String} {now : Int}
    (hold : isLive s oldA = true) (hnew : isLive s newA = true)
    (hne : newA ≠ oldA) :
    updateAlias s oldA newA now = Except.error StorageErr.storeFailure := by
  have h1 : (s.rows.any (fun r => r.alias_ == oldA)) = true := hold
  have h2 : (s.rows.any (fun r => r.alias_ == newA)) = true := hnew
  simp [updateAlias, h1, h2, hne]

theorem updateAlias_eq_ok {s : Store} {oldA newA : String} {now : Int} {s2 : Store}
    (h : updateAlias s oldA newA now = Except.ok s2) :
    (isLive s oldA = false ∧ s2 = s) ∨
    (isLive s oldA = true ∧ (newA = oldA ∨ isLive s newA = false) ∧
      s2 = ⟨s.rows.map (renameRow oldA newA now)⟩) := by
  unfold updateAlias at h
  split at h
  · next hc =>
    split at h
    · exact absurd h (by simp)
    · next hc2 =>
      refine Or.inr ⟨hc, ?_, ?_⟩
      · by_cases hne : newA = oldA
        · exact Or.inl hne
        · refine Or.inr ?_
          have : ¬ ((s.rows.any (fun r => r.alias_ == newA)) = true) := by
            intro hany
            exact hc2 (by simp [hany, bne_iff_ne, hne])
          simpa [isLive] using this
      · simpa using h.symm
  · next hc =>
    refine Or.inl ⟨?_, by simpa using h.symm⟩
    simpa [isLive] using hc

theorem aliasNe_symm : Symmetric (fun a b : Row => a.alias_ ≠ b.alias_) :=
  fun _ _ h => Ne.symm h

theorem uniq_row_unique {s : Store} (hu : Uniq s) {r1 r2 : Row}
    (h1 : r1 ∈ s.rows) (h2 : r2 ∈ s.rows) (h : r1.alias_ = r2.alias_) :
    r1 = r2 := by
  by_contra hne
  exact (hu.forall aliasNe_symm h1 h2 hne) h

theorem uniq_append_save {s : Store} {a url : String} {now : Int} {id : Nat}
    (hu : Uniq s) (h : isLive s a = false) :
    Uniq ⟨s.rows ++ [⟨id, a, url, now, now⟩]⟩ := by
  unfold Uniq at *
  rw [List.pairwise_append]
  refine ⟨hu, List.pairwise_singleton _ _, ?_⟩
  intro x hx b hb
  simp only [List.mem_singleton] at hb
  subst hb
  exact not_live_forall h x hx

theorem renameRow_alias (oldA newA : String) (now : Int) (r : Row) :
    (renameRow oldA newA now r).alias_ =
      if r.alias_ = oldA then newA else r.alias_ := by
  by_cases h : r.alias_ = oldA <;> simp [renameRow, h]

theorem uniq_update_map {s : Store} {oldA newA : String} {now : Int}
    (hu : Uniq s) (hnew : newA = oldA ∨ isLive s newA = false) :
    Uniq ⟨s.rows.map (renameRow oldA newA now)⟩ := by
  unfold Uniq at *
  rw [List.pairwise_map]
  refine hu.imp_of_mem ?_
  intro x y hx hy hxy
  rw [renameRow_alias, renameRow_alias]
  by_cases hxa : x.alias_ = oldA
  · by_cases hya : y.alias_ = oldA
    · exact absurd (hxa.trans hya.symm) hxy
    · rw [if_pos hxa, if_neg hya]
      rcases hnew with rfl | hnl
      · exact fun hc => hya hc.symm
      · exact fun hc => (not_live_forall hnl y hy) hc.symm
  · by_cases hya : y.alias_ = oldA
    · rw [if_neg hxa, if_pos hya]
      rcases hnew with rfl | hnl
      · exact fun hc => hxa hc
      · exact fun hc => (not_live_forall hnl x hx) hc
    · rwa [if_neg hxa, if_neg hya]

theorem uniq_filter {s : Store} (hu : Uniq s) (p : Row → Bool) :
    Uniq ⟨s.rows.filter p⟩ :=
  List.Pairwise.sublist (List.filter_sublist _) hu

theorem uniq_applyOp {s : Store} (hu : Uniq s) (op : Op) :
    Uniq (applyOp s op) := by
  cases op with
  | save url a now =>
    cases hres : saveURL s url a now with
    | ok v =>
      obtain ⟨id, s2⟩ := v
      obtain ⟨hlive, _, hs2⟩ := saveURL_eq_ok hres
      have : applyOp s (Op.save url a now) = s2 := by simp [applyOp, hres]
      rw [this, hs2]
      exact uniq_append_save hu hlive
    | error e =>
      have : applyOp s (Op.save url a now) = s := by simp [applyOp, hres]
      rwa [this]
  | resolve a => exact hu
  | rename oldA newA now =>
    cases hres : updateAlias s oldA newA now with
    | ok s2 =>
      have happ : applyOp s (Op.rename oldA newA now) = s2 := by
        simp [applyOp, hres]
      rw [happ]
      rcases updateAlias_eq_ok hres with ⟨_, rfl⟩ | ⟨_, hnew, rfl⟩
      · exact hu
      · exact uniq_update_map hu hnew
    | error e =>
      have : applyOp s (Op.rename oldA newA now) = s := by simp [applyOp, hres]
      rwa [this]
  | delete a =>
    have : applyOp s (Op.delete a) = ⟨s.rows.filter (fun r => r.alias_ != a)⟩ := by
      simp [applyOp, deleteURL]
    rw [this]
    exact uniq_filter hu _

/-! ### The claims -/

/-- C1: for every store state satisfying the alias-uniqueness invariant (in
particular every state reachable from the empty table) and every sequence of
save / resolve / rename / delete operations, no two live (non-deleted)
mappings ever share the same alias: every operation preserves the uniqueness
invariant. -/
theorem c1_alias_uniqueness (s : Store) (ops : List Op) (hu : Uniq s) :
    Uniq (applyOps s ops) := by
  induction ops generalizing s with
  | nil => exact hu
  | cons op t ih => exact ih _ (uniq_applyOp hu op)

theorem c1_alias_uniqueness_witness :
    Uniq (applyOps ⟨[]⟩
      [Op.save "https://e.com/a" "a" 0, Op.save "https://e.com/b" "a" 1,
        Op.rename "a" "b" 2, Op.delete "b"]) :=
  c1_alias_uniqueness ⟨[]⟩ _ (by decide)

/-- C2: for every target and every alias that is not currently live,
`save(target, alias)` succeeds and a subsequent `resolve(alias)` returns
exactly that target. -/
theorem c2_save_then_resolve (s : Store) (url a : String) (now : Int)
    (h : isLive s a = false) :
    ∃ id s2, saveURL s url a now = Except.ok (id, s2) ∧
      getURL s2 a = Except.ok url := by
  refine ⟨nextId s, ⟨s.rows ++ [⟨nextId s, a, url, now, now⟩]⟩,
    saveURL_not_live h, ?_⟩
  have h1 : s.rows.find? (fun r => r.alias_ == a) = none :=
    List.find?_eq_none.mpr (fun x hx => by simpa using not_live_forall h x hx)
  have hfind : (s.rows ++ [(⟨nextId s, a, url, now, now⟩ : Row)]).find?
      (fun r => r.alias_ == a) = some ⟨nextId s, a, url, now, now⟩ := by
    rw [List.find?_append, h1]
    simp [List.find?]
  simp [getURL, hfind]

theorem c2_save_then_resolve_witness :
    ∃ id s2, saveURL ⟨[]⟩ "https://e.com/a" "x" 0 = Except.ok (id, s2) ∧
      getURL s2 "x" = Except.ok "https://e.com/a" :=
  c2_save_then_resolve ⟨[]⟩ "https://e.com/a" "x" 0 (by decide)

/-- C3: for every alias that is already live, a second save with that alias
(any target) fails with `AlreadyExists`, and the store state — hence the
existing mapping's id, target, created_at and updated_at — is unchanged. -/
theorem c3_duplicate_save_rejected (s : Store) (url2 a : String) (now : Int)
    (h : isLive s a = true) :
    saveURL s url2 a now = Except.error StorageErr.urlAlreadyExists ∧
      applyOp s (Op.save url2 a now) = s :=
  ⟨saveURL_live h, by simp [applyOp, saveURL_live h]⟩

theorem c3_duplicate_save_rejected_witness :
    saveURL ⟨[⟨1, "a", "https://e.com/a", 0, 0⟩]⟩ "https://e.com/b" "a" 7 =
        Except.error StorageErr.urlAlreadyExists ∧
      applyOp ⟨[⟨1, "a", "https://e.com/a", 0, 0⟩]⟩
        (Op.save "https://e.com/b" "a" 7) = ⟨[⟨1, "a", "https://e.com/a", 0, 0⟩]⟩ :=
  c3_duplicate_save_rejected ⟨[⟨1, "a", "https://e.com/a", 0, 0⟩]⟩
    "https://e.com/b" "a" 7 (by decide)

/-- C6: for every alias that is not currently live, `resolve(alias)` fails
with `NotFound`; and resolve never mutates the store state in any case. -/
theorem c6_resolve_missing_notFound (s : Store) (a : String)
    (h : isLive s a = false) :
    getURL s a = Except.error StorageErr.urlNotFound ∧
      ∀ b : String, applyOp s (Op.resolve b) = s :=
  ⟨getURL_eq_error h, fun _ => rfl⟩

theorem c6_resolve_missing_notFound_witness :
    getURL ⟨[⟨1, "a", "https://e.com/a", 0, 0⟩]⟩ "z" =
        Except.error StorageErr.urlNotFound ∧
      ∀ b : String, applyOp ⟨[⟨1, "a", "https://e.com/a", 0, 0⟩]⟩
        (Op.resolve b) = ⟨[⟨1, "a", "https://e.com/a", 0, 0⟩]⟩ :=
  c6_resolve_missing_notFound ⟨[⟨1, "a", "https://e.com/a", 0, 0⟩]⟩ "z" (by decide)

/-- C7: delete is idempotent: for every alias (live or not), `delete(alias)`
returns no error; afterwards `resolve(alias)` fails with `NotFound`, and a
second `delete(alias)` again succeeds without error and leaves the state
unchanged. -/
theorem c7_delete_idempotent (s : Store) (a : String) :
    ∃ s2, deleteURL s a = Except.ok s2 ∧
      getURL s2 a = Except.error StorageErr.urlNotFound ∧
      deleteURL s2 a = Except.ok s2 := by
  refine ⟨⟨s.rows.filter (fun r => r.alias_ != a)⟩, rfl, ?_, ?_⟩
  · apply getURL_eq_error
    unfold isLive
    refine List.any_eq_false.mpr ?_
    intro x hx
    have hmem := (List.mem_filter.mp hx).2
    simpa using hmem
  · have hself : (s.rows.filter (fun r => r.alias_ != a)).filter
        (fun r => r.alias_ != a) = s.rows.filter (fun r => r.alias_ != a) :=
      List.filter_eq_self.mpr (fun x hx => (List.mem_filter.mp hx).2)
    simp [deleteURL, hself]

/-- C4: in every state satisfying the uniqueness invariant where `oldAlias`
is live (resolving to target `t`) and `newAlias` is not live,
`rename(oldAlias, newAlias)` succeeds, and afterwards `resolve(oldAlias)`
fails with `NotFound` while `resolve(newAlias)` returns the target originally
stored under `oldAlias`. -/
theorem c4_rename_moves_mapping (s : Store) (oldA newA t : String) (now : Int)
    (hu : Uniq s) (ht : getURL s oldA = Except.ok t)
    (hn : isLive s newA = false) :
    ∃ s2, updateAlias s oldA newA now = Except.ok s2 ∧
      getURL s2 oldA = Except.error StorageErr.urlNotFound ∧
      getURL s2 newA = Except.ok t := by
  cases hf : s.rows.find? (fun r => r.alias_ == oldA) with
  | none => simp [getURL, hf] at ht
  | some r =>
    have hrurl : r.url = t := by simpa [getURL, hf] using ht
    have hrmem : r ∈ s.rows := List.mem_of_find?_eq_some hf
    have hralias : r.alias_ = oldA := by simpa using List.find?_some hf
    have hold : isLive s oldA = true := by
      unfold isLive
      exact List.any_eq_true.mpr ⟨r, hrmem, by simp [hralias]⟩
    have hne : newA ≠ oldA := by
      intro he
      rw [he, hold] at hn
      cases hn
    refine ⟨_, updateAlias_success hold hn, ?_, ?_⟩
    · apply getURL_eq_error
      unfold isLive
      refine List.any_eq_false.mpr ?_
      intro x hx
      obtain ⟨r0, hr0, rfl⟩ := List.mem_map.mp hx
      rw [renameRow_alias]
      by_cases h0 : r0.alias_ = oldA
      · simp [h0, hne]
      · simp [h0]
    · have hpf : ((renameRow oldA newA now r).alias_ == newA) = true := by
        rw [renameRow_alias]
        simp [hralias]
      have hmemf : renameRow oldA newA now r ∈
          s.rows.map (renameRow oldA newA now) :=
        List.mem_map.mpr ⟨r, hrmem, rfl⟩
      cases hg : (s.rows.map (renameRow oldA newA now)).find?
          (fun x => x.alias_ == newA) with
      | none =>
        exact absurd hpf (List.find?_eq_none.mp hg _ hmemf)
      | some x =>
        have hxmem := List.mem_of_find?_eq_some hg
        have hxp : x.alias_ = newA := by simpa using List.find?_some hg
        obtain ⟨r0, hr0, rfl⟩ := List.mem_map.mp hxmem
        by_cases h0 : r0.alias_ = oldA
        · have hr0r : r0 = r := uniq_row_unique hu hr0 hrmem (h0.trans hralias.symm)
          have hurl : (renameRow oldA newA now r0).url = r0.url := by
            unfold renameRow
            by_cases hh : (r0.alias_ == oldA) = true <;> simp [hh]
          have hrt : r0.url = t := by rw [hr0r, hrurl]
          simp [getURL, hg, hurl, hrt]
        · exfalso
          rw [renameRow_alias, if_neg h0] at hxp
          exact (not_live_forall hn r0 hr0) hxp

theorem c4_rename_moves_mapping_witness :
    ∃ s2, updateAlias ⟨[⟨1, "a", "https://e.com/a", 0, 0⟩]⟩ "a" "b" 9 =
        Except.ok s2 ∧
      getURL s2 "a" = Except.error StorageErr.urlNotFound ∧
      getURL s2 "b" = Except.ok "https://e.com/a" :=
  c4_rename_moves_mapping ⟨[⟨1, "a", "https://e.com/a", 0, 0⟩]⟩ "a" "b"
    "https://e.com/a" 9 (by decide) (by rfl) (by decide)

/-- C5, counterexample to the claim as stated: with live mappings "a" and "b",
`rename("a", "b")` hits the UNIQUE constraint, but `UpdateAlias` does not map
the constraint violation to `AlreadyExists` (it has no
`sqlite3.ErrConstraintUnique` branch, unlike `SaveURL`), so the call fails
with the generic wrapped store error instead. -/
theorem c5_counterexample :
    updateAlias ⟨[⟨1, "a", "https://e.com/a", 0, 0⟩,
        ⟨2, "b", "https://e.com/b", 0, 0⟩]⟩ "a" "b" 5 =
      Except.error StorageErr.storeFailure ∧
    StorageErr.storeFailure ≠ StorageErr.urlAlreadyExists :=
  ⟨rfl, by decide⟩

/-- C5, amended: in every state satisfying the uniqueness invariant where
`newAlias` names a live mapping distinct from the one keyed by the live
`oldAlias` (equivalently, `newAlias ≠ oldAlias` with both live),
`rename(oldAlias, newAlias)` fails — not silently succeeding — with the
generic `StoreFailure` (the unmapped unique-constraint violation), not with
`AlreadyExists`, and the store state is unchanged. -/
theorem c5_rename_collision_generic_failure (s : Store) (oldA newA : String)
    (now : Int) (hold : isLive s oldA = true) (hnew : isLive s newA = true)
    (hne : newA ≠ oldA) :
    updateAlias s oldA newA now = Except.error StorageErr.storeFailure ∧
      applyOp s (Op.rename oldA newA now) = s :=
  ⟨updateAlias_collision hold hnew hne,
    by simp [applyOp, updateAlias_collision hold hnew hne]⟩

theorem c5_rename_collision_generic_failure_witness :
    updateAlias ⟨[⟨1, "a", "https://e.com/a", 0, 0⟩,
        ⟨2, "b", "https://e.com/b", 0, 0⟩]⟩ "a" "b" 5 =
        Except.error StorageErr.storeFailure ∧
      applyOp ⟨[⟨1, "a", "https://e.com/a", 0, 0⟩,
          ⟨2, "b", "https://e.com/b", 0, 0⟩]⟩ (Op.rename "a" "b" 5) =
        ⟨[⟨1, "a", "https://e.com/a", 0, 0⟩, ⟨2, "b", "https://e.com/b", 0, 0⟩]⟩ :=
  c5_rename_collision_generic_failure
    ⟨[⟨1, "a", "https://e.com/a", 0, 0⟩, ⟨2, "b", "https://e.com/b", 0, 0⟩]⟩
    "a" "b" 5 (by decide) (by decide) (by decide)

/-- C8, counterexample to the claim as stated: the schema has no
AUTOINCREMENT, so SQLite assigns rowid = max(live rowids) + 1.  On an empty
store a save is assigned id 1; after deleting that mapping the table is empty
again and the next save is assigned id 1 once more — the id IS reused after
deletion within the running store instance. -/
theorem c8_counterexample :
    saveURL emptyStore "https://e.com/a" "a" 0 =
        Except.ok (1, ⟨[⟨1, "a", "https://e.com/a", 0, 0⟩]⟩) ∧
      deleteURL ⟨[⟨1, "a", "https://e.com/a", 0, 0⟩]⟩ "a" = Except.ok ⟨[]⟩ ∧
      saveURL ⟨[]⟩ "https://e.com/b" "b" 1 =
        Except.ok (1, ⟨[⟨1, "b", "https://e.com/b", 1, 1⟩]⟩) :=
  ⟨rfl, rfl, rfl⟩

/-- C8, amended: a successful save is assigned id `max(live ids) + 1`, so the
id always differs from the id of every mapping live at that moment (no two
simultaneously-live mappings ever share an id); but an id can be assigned
again after the mapping holding the largest id is deleted. -/
theorem c8_id_fresh_among_live (s : Store) (url a : String) (now : Int)
    (id : Nat) (s2 : Store) (h : saveURL s url a now = Except.ok (id, s2)) :
    id = maxId s + 1 ∧ ∀ r ∈ s.rows, r.id ≠ id := by
  obtain ⟨_, hid, _⟩ := saveURL_eq_ok h
  subst hid
  refine ⟨rfl, ?_⟩
  intro r hr
  have hle := id_le_foldrMax s.rows r hr
  unfold nextId maxId
  omega

theorem c8_id_fresh_among_live_witness :
    1 = maxId ⟨[]⟩ + 1 ∧ ∀ r ∈ (⟨[]⟩ : Store).rows, r.id ≠ 1 :=
  c8_id_fresh_among_live ⟨[]⟩ "https://e.com/a" "a" 0 1
    ⟨[⟨1, "a", "https://e.com/a", 0, 0⟩]⟩ (by rfl)

/-- C9: for every length ≥ 0 and every sequence of PRNG draws, the generator
returns (no error case) a string of exactly `length` characters, each drawn
from the 36-symbol alphabet `[a-z0-9]`; in particular length 0 yields the
empty string. -/
theorem c9_generate_length_alphabet (length : Int) (rnd : Nat → Fin 36)
    (h : 0 ≤ length) :
    ∃ str, generateRandomString length rnd = some str ∧
      str.length = length.toNat ∧ (length = 0 → str = "") ∧
      ∀ c ∈ str.data, c ∈ charset ∧
        (( 'a' ≤ c ∧ c ≤ 'z') ∨ ( '0' ≤ c ∧ c ≤ '9')) := by
  refine ⟨String.mk ((List.range length.toNat).map
      (fun i => charset.get (Fin.cast (by decide) (rnd i)))), ?_, ?_, ?_, ?_⟩
  · simp [generateRandomString, not_lt.mpr h]
  · simp [String.length]
  · intro h0
    subst h0
    rfl
  · intro c hc
    simp only [String.data] at hc
    obtain ⟨i, _, rfl⟩ := List.mem_map.mp hc
    refine ⟨List.get_mem _ _ _, ?_⟩
    have hall : ∀ x ∈ charset,
        (( 'a' ≤ x ∧ x ≤ 'z') ∨ ( '0' ≤ x ∧ x ≤ '9')) := by decide
    exact hall _ (List.get_mem _ _ _)

theorem c9_generate_length_alphabet_witness :
    ∃ str, generateRandomString 5 (fun _ => 0) = some str ∧
      str.length = (5 : Int).toNat ∧ ((5 : Int) = 0 → str = "") ∧
      ∀ c ∈ str.data, c ∈ charset ∧
        (( 'a' ≤ c ∧ c ≤ 'z') ∨ ( '0' ≤ c ∧ c ≤ '9')) :=
  c9_generate_length_alphabet 5 (fun _ => 0) (by decide)

/-- C10: for every negative length the generator does not return a string:
`make([]rune, length)` panics on a negative size, the unstated edge case of
the public interface, modelled as `none`. -/
theorem c10_generate_negative_length_panics (length : Int) (rnd : Nat → Fin 36)
    (h : length < 0) : generateRandomString length rnd = none := by
  simp [generateRandomString, h]

theorem c10_generate_negative_length_panics_witness :
    generateRandomString (-1) (fun _ => 0) = none :=
  c10_generate_negative_length_panics (-1) (fun _ => 0) (by decide)

end Shorty
